import Mathlib

/-!
# Verification of the cococo note store, masking engine and geometry helpers

Shallow embedding of the repository's core:

* `src/unnamed/part_000` — the id-keyed `Editor` class (note store, drag
  conflict resolution, voice trimming, step-mask engine);
* `src/core/editor.ts` — the key-keyed editor variant whose `maskNotes`
  toggles the per-note `isMasked` flag;
* `src/core/interactions.ts` — the geometry helpers `quantizePosition`,
  `clampPosition`, `clampPitch` and the mask-lane assignment handler.

JavaScript `Map`s are modelled as insertion-ordered lists of values keyed by
the stored key (note ids are globally unique per the data model).  JavaScript
numbers are modelled as `Int` where the program only ever holds integers, and
as `Rat` where a division occurs (`quantizePosition`).  A thrown `TypeError`
is modelled by `Except`.
-/

namespace Cococo

/-- Note provenance (`Source` in `note.ts`). -/
inductive Source
  | USER
  | AGENT
deriving DecidableEq, Repr

/-- Modelled from the spec: `note.ts` is not under `src/`.  The spec's data
model gives a `Note` a stable unique `id`, integer `pitch`, integer
`position` (sixteenth step), integer `duration` (≥ 1), a `voice` (one of four
enumerated voices used as the mask-lane index 0..3), a `source`, and the
transient flags `isPlaying` and `isMasked`. -/
structure Note where
  id : Nat
  pitch : Int
  position : Int
  duration : Int
  voice : Nat := 0
  source : Source := Source.USER
  isPlaying : Bool := false
  isMasked : Bool := false
deriving DecidableEq, Repr

/-- Modelled from the spec: derived boundary `start = position`. -/
def Note.start (n : Note) : Int := n.position

/-- Modelled from the spec: derived boundary `end = position + duration`
(`end` is reserved in Lean, hence `endp`). -/
def Note.endp (n : Note) : Int := n.position + n.duration

/-- Modelled from the spec: `moveStart(x)` recomputes `position`/`duration`
preserving the end boundary. -/
def Note.moveStart (n : Note) (x : Int) : Note :=
  { n with position := x, duration := n.position + n.duration - x }

/-- Modelled from the spec: `moveEnd(x)` recomputes `duration` preserving the
start boundary. -/
def Note.moveEnd (n : Note) (x : Int) : Note :=
  { n with duration := x - n.position }

/-- Modelled from the spec: the four voices SOPRANO/ALTO/TENOR/BASS are used
as mask-lane indices in order. -/
def SOPRANO : Nat := 0

/-- lodash `_.range(a, b)`: ascending `[a, a+1, …, b-1]` when `a ≤ b`
(step 1), descending `[a, a-1, …, b+1]` when `a > b` (step −1). -/
def lrange (a b : Int) : List Int :=
  if a ≤ b then (List.range (b - a).toNat).map (fun (i : Nat) => a + (i : Int))
  else (List.range (a - b).toNat).map (fun (i : Nat) => a - (i : Int))

/-- A JS `Set<number>` built from a list (keeping first occurrences) and
re-materialised as a numerically sorted array (the pattern
`[...set.values()].sort((a, b) => a - b)`). -/
def sortMaskSet (l : List Int) : List Int :=
  (l.dedup).insertionSort (· ≤ ·)

/-- The `Editor` store state of `src/unnamed/part_000`: the persistent and
temp note maps (id-keyed, insertion-ordered), the four per-voice generation
masks, and the currently-playing set (a JS `Set` of note references, modelled
as the list of note values in insertion order). -/
structure Editor where
  notesMap : List Note
  tempNotesMap : List Note
  generationMasks : List (List Int) := [[], [], [], []]
  currentlyPlayingNotes : List Note := []
deriving DecidableEq, Repr

namespace Editor

/-- `allNotes`: persistent map values followed by temp map values. -/
def allNotes (s : Editor) : List Note :=
  s.notesMap ++ s.tempNotesMap

/-- `getNoteByPitchPosition`: first note of `allNotes` with the given pitch
and position. -/
def getNoteByPitchPosition (s : Editor) (pitch position : Int) : Option Note :=
  (allNotes s).find? (fun note => note.pitch == pitch && note.position == position)

/-- `setCurrentlyPlaying(note)`: sets `note.isPlaying = true` (the note
object lives in one of the two maps; ids are unique, so the flag is set on
the entry carrying `note.id`) and adds the note to the playing set. -/
def setCurrentlyPlaying (s : Editor) (note : Note) : Editor :=
  let mark := fun (n : Note) => if n.id == note.id then { n with isPlaying := true } else n
  { s with
    notesMap := s.notesMap.map mark
    tempNotesMap := s.tempNotesMap.map mark
    currentlyPlayingNotes :=
      if s.currentlyPlayingNotes.any (fun n => n.id == note.id)
      then s.currentlyPlayingNotes
      else s.currentlyPlayingNotes ++ [{ note with isPlaying := true }] }

/-- The sweep at the end of `setNotePlaying`: every playing note whose
sounding window has been passed (`position + duration <= position`) has its
flag cleared and is removed from the playing set. -/
def clearPassed (s : Editor) (position : Int) : Editor :=
  let passed := s.currentlyPlayingNotes.filter
    (fun playingNote => playingNote.position + playingNote.duration ≤ position)
  let unmark := fun (n : Note) =>
    if passed.any (fun p => p.id == n.id) then { n with isPlaying := false } else n
  { s with
    notesMap := s.notesMap.map unmark
    tempNotesMap := s.tempNotesMap.map unmark
    currentlyPlayingNotes := s.currentlyPlayingNotes.filter
      (fun playingNote => ¬ playingNote.position + playingNote.duration ≤ position) }

/-- `setNotePlaying(pitch, position)` of `part_000`.  After the guarded
`if (note) this.setCurrentlyPlaying(note);` the code runs
`const tempNote = this.tempNotesMap.get(note.id);` unconditionally: when the
lookup missed, `note` is `undefined` and the property access throws a
`TypeError` before the playhead sweep runs — modelled as `Except.error`. -/
def setNotePlaying (s : Editor) (pitch position : Int) : Except Unit Editor :=
  match getNoteByPitchPosition s pitch position with
  | none => Except.error ()
  | some note =>
    let s1 := setCurrentlyPlaying s note
    let s2 :=
      match s1.tempNotesMap.find? (fun n => n.id == note.id) with
      | some tempNote => setCurrentlyPlaying s1 tempNote
      | none => s1
    Except.ok (clearPassed s2 position)

/-- The non-undoable internal `_removeNote`: deletes by id from the
persistent map. -/
def removeNoteInternal (s : Editor) (note : Note) : Editor :=
  { s with notesMap := s.notesMap.filter (fun n => n.id ≠ note.id) }

/-- The public `removeNote` of `part_000` reads
`removeNote(note) { this.removeNote(note); }` — it calls **itself**, not
`_removeNote`.  Modelled with explicit fuel: each unfolding consumes one
stack frame and calls itself on unchanged arguments, so no amount of fuel
produces a result. -/
def removeNoteFuel : Nat → Editor → Note → Option Editor
  | 0, _, _ => none
  | fuel + 1, s, note => removeNoteFuel fuel s note

/-- `endNoteDrag(note)` of `part_000`: iterates a snapshot of `allNotes`;
for every *other* note sharing the dragged note's `(pitch, position)` it
executes `this.notesMap.delete(note.id)` — deleting the **dragged** note's
id (repeated deletion of the same id is one deletion).  The surrounding
`undo.completeUndoable()` only records the snapshot and is not modelled. -/
def endNoteDrag (s : Editor) (note : Note) : Editor :=
  if (allNotes s).any (fun other =>
      other.id != note.id && other.position == note.position && other.pitch == note.pitch)
  then { s with notesMap := s.notesMap.filter (fun n => n.id ≠ note.id) }
  else s

/-- `overlaps(note, positionRange, pitchRange)` of `part_000` (ranges are
two-element arrays, modelled as pairs). -/
def overlaps (note : Note) (positionRange pitchRange : Int × Int) : Bool :=
  let startPosition := positionRange.1
  let endPosition := positionRange.2
  let startValue := pitchRange.1
  let endValue := pitchRange.2
  if note.pitch < startValue || note.pitch > endValue then false
  else if startPosition ≤ note.position && note.position < endPosition then true
  else if note.position < startPosition && startPosition < note.position + note.duration then true
  else false

/-- In-place mutation of the note object carrying id `i` (it lives in exactly
one of the two maps; ids are unique). -/
def updateNoteById (s : Editor) (i : Nat) (f : Note → Note) : Editor :=
  { s with
    notesMap := s.notesMap.map (fun n => if n.id = i then f n else n)
    tempNotesMap := s.tempNotesMap.map (fun n => if n.id = i then f n else n) }

/-- One step of the `forEach` in `trimOverlappingVoices`: an overlapping note
whose end extends past `noteEnd` is truncated in place via
`moveStart(noteEnd)`; otherwise `_removeNote` deletes its id from the
persistent map (only — a temp note is not removed by it). -/
def trimStep (noteEnd : Int) (st : Editor) (otherNote : Note) : Editor :=
  if otherNote.endp > noteEnd then
    updateNoteById st otherNote.id (fun n => n.moveStart noteEnd)
  else
    { st with notesMap := st.notesMap.filter (fun n => n.id ≠ otherNote.id) }

/-- `trimOverlappingVoices(note)` of `part_000`.  `MIN_PITCH`/`MAX_PITCH`
live in `constants.ts` (not under `src/`) and are passed as parameters. -/
def trimOverlappingVoices (minPitch maxPitch : Int) (s : Editor) (note : Note) : Editor :=
  let overlappingNotes := (allNotes s).filter (fun otherNote =>
    otherNote.id != note.id && otherNote.voice == note.voice &&
      overlaps otherNote (note.start, note.endp) (minPitch, maxPitch))
  overlappingNotes.foldl (trimStep note.endp) s

/-- `addMask(voiceIndex, mask)`: union of the voice's existing mask indices
with the supplied list via a JS `Set`, re-materialised sorted ascending. -/
def addMask (s : Editor) (voiceIndex : Nat) (mask : List Int) : Editor :=
  let lane := sortMaskSet (s.generationMasks.getD voiceIndex [] ++ mask)
  { s with generationMasks := s.generationMasks.set voiceIndex lane }

/-- `removeMask(voiceIndex, mask)`: set difference of the voice's existing
mask indices minus the supplied list, re-materialised sorted ascending. -/
def removeMask (s : Editor) (voiceIndex : Nat) (mask : List Int) : Editor :=
  let lane := sortMaskSet ((s.generationMasks.getD voiceIndex []).filter
    (fun maskIndex => !(mask.contains maskIndex)))
  { s with generationMasks := s.generationMasks.set voiceIndex lane }

/-- `maskNotes(positionRange, pitchRange)` of `part_000`: collects the notes
overlapping the selection, then for each adds the intersection of the note's
span with `positionRange` to the note's voice's mask (the local
`maskSetsByVoice` in the source is dead code). -/
def maskNotes (s : Editor) (positionRange pitchRange : Int × Int) : Editor :=
  let notesInMask := (allNotes s).filter (fun note => overlaps note positionRange pitchRange)
  notesInMask.foldl (fun st note =>
    let maskStart := max positionRange.1 note.start
    let maskEnd := min positionRange.2 note.endp
    addMask st note.voice (lrange maskStart maskEnd)) s

/-- `isNoteMasked(note)`: some mask index of the note's voice falls within
`[start, end)`. -/
def isNoteMasked (s : Editor) (note : Note) : Bool :=
  (s.generationMasks.getD note.voice []).any
    (fun maskIndex => note.start ≤ maskIndex && maskIndex < note.endp)

end Editor

/-! ## The flag-toggling editor variant (`src/core/editor.ts`)

Notes there carry a `value` field (the pitch); the user/agent maps are keyed
by the string `` `${pitch}:${position}` ``.  Only `maskNotes`/`overlaps` are
needed here. -/

namespace EditorV

/-- The `Note` shape used by `src/core/editor.ts` (fields read by
`overlaps`/`maskNotes`: `value`, `position`, `duration`, `isMasked`). -/
structure NoteV where
  value : Int
  position : Int
  duration : Int
  voice : Nat := 0
  isPlaying : Bool := false
  isMasked : Bool := false
deriving DecidableEq, Repr

/-- The two note maps of the `editor.ts` `Editor` class, modelled as
insertion-ordered key/value lists. -/
structure EditorState where
  userNotesMap : List (String × NoteV)
  agentNotesMap : List (String × NoteV)
deriving DecidableEq, Repr

/-- `overlaps(note, positionRange, valueRange)` of `editor.ts` — identical
logic to the `part_000` version, reading `value` instead of `pitch`. -/
def overlaps (note : NoteV) (positionRange valueRange : Int × Int) : Bool :=
  let startPosition := positionRange.1
  let endPosition := positionRange.2
  let startValue := valueRange.1
  let endValue := valueRange.2
  if note.value < startValue || note.value > endValue then false
  else if startPosition ≤ note.position && note.position < endPosition then true
  else if note.position < startPosition && startPosition < note.position + note.duration then true
  else false

/-- The per-note body of `maskNotes`: `note.isMasked = !note.isMasked` for
every overlapping note. -/
def toggleIfOverlaps (positionRange valueRange : Int × Int) (note : NoteV) : NoteV :=
  if overlaps note positionRange valueRange then { note with isMasked := !note.isMasked }
  else note

/-- `maskNotes(positionRange, valueRange)` of `editor.ts`: iterates
`[...userNotes, ...agentNotes]` and toggles the `isMasked` flag of every
note overlapping the selection (mutating the map entries in place). -/
def maskNotes (s : EditorState) (positionRange valueRange : Int × Int) : EditorState :=
  { userNotesMap := s.userNotesMap.map
      (fun kv => (kv.1, toggleIfOverlaps positionRange valueRange kv.2))
    agentNotesMap := s.agentNotesMap.map
      (fun kv => (kv.1, toggleIfOverlaps positionRange valueRange kv.2)) }

end EditorV

/-! ## Geometry helpers (`src/core/interactions.ts`)

`quantizePosition` divides by `editor.quantizeStep` before rounding, so it is
modelled over `Rat`; the clamp helpers only ever see integers.
`editor.totalSixteenths`, `MIN_PITCH` and `MAX_PITCH` come from configuration
(`constants.ts` is not under `src/`) and are passed as parameters. -/

namespace Interactions

/-- The rounding policies passed for `fn`: `Math.round` (the default),
`Math.floor`, `Math.ceil`. -/
inductive Rounding
  | round
  | floor
  | ceil
deriving DecidableEq, Repr

/-- Apply a JS rounding function to a number.  `Math.round(x)` rounds half
toward positive infinity: `⌊x + 1/2⌋`. -/
def Rounding.apply : Rounding → Rat → Int
  | Rounding.round, x => ⌊x + (1 : Rat) / 2⌋
  | Rounding.floor, x => ⌊x⌋
  | Rounding.ceil, x => ⌈x⌉

/-- `quantizePosition(position, fn)`: `fn(position / quantizeStep) *
quantizeStep`.  For an integer `quantizeStep` the result is an integer. -/
def quantizePosition (quantizeStep : Int) (position : Rat) (fn : Rounding) : Int :=
  fn.apply (position / (quantizeStep : Rat)) * quantizeStep

/-- `clampPosition(position)` calls lodash `_.clamp(position,
editor.totalSixteenths - 1)` — the **two-argument** overload, in which the
single bound is the upper bound and no lower bound is applied. -/
def clampPosition (totalSixteenths : Int) (position : Int) : Int :=
  min position (totalSixteenths - 1)

/-- `clampLoopPosition(position)`: `_.clamp(position, 0,
editor.totalSixteenths)` — both bounds (lodash applies the upper bound first,
then the lower). -/
def clampLoopPosition (totalSixteenths : Int) (position : Int) : Int :=
  max (min position totalSixteenths) 0

/-- `clampPitch(pitch)`: `_.clamp(pitch, MIN_PITCH, MAX_PITCH)`. -/
def clampPitch (minPitch maxPitch : Int) (pitch : Int) : Int :=
  max (min pitch maxPitch) minPitch

/-- The `mouseUp` body of `handleMaskLaneMouseDown` in `interactions.ts`:
from the drag endpoints `aX`/`bX` (pixel offsets), it orders them, converts
to sixteenth positions via `sixteenthWidth`, floor-quantizes the start and
ceil-quantizes the end. -/
def maskLanePositionRange (quantizeStep : Int) (sixteenthWidth : Rat) (aX bX : Rat) : Int × Int :=
  let startX := if aX ≤ bX then aX else bX
  let endX := if aX > bX then aX else bX
  (quantizePosition quantizeStep (startX / sixteenthWidth) Rounding.floor,
   quantizePosition quantizeStep (endX / sixteenthWidth) Rounding.ceil)

/-- `editor.generationMasks[voiceIndex] = _.range(positionRange[0],
positionRange[1])` — the full-lane mask assignment performed by the same
`mouseUp` handler. -/
def maskLaneAssign (s : Editor) (voiceIndex : Nat) (positionRange : Int × Int) : Editor :=
  { s with generationMasks :=
      s.generationMasks.set voiceIndex (lrange positionRange.1 positionRange.2) }

end Interactions

/-! ## Spec-side predicates and proof-side recursions -/

/-- The spec's mask-lane shape: a strictly ascending (hence duplicate-free)
sequence. -/
abbrev laneSorted (l : List Int) : Prop := List.Sorted (· < ·) l

/-- Every lane entry within `[0, totalSixteenths)`. -/
abbrev laneInRange (t : Int) (l : List Int) : Prop := ∀ i ∈ l, 0 ≤ i ∧ i < t

/-- The spec's generation-mask invariant over all lanes. -/
abbrev masksGood (t : Int) (masks : List (List Int)) : Prop :=
  ∀ l ∈ masks, laneSorted l ∧ laneInRange t l

/-- Pointwise effect of one `trimStep` for the note `o` on a persistent-map
entry `n`: untouched when the ids differ, truncated when `o` outlives the
trimming end, deleted otherwise. -/
def gstep (e : Int) (o : Note) (n : Note) : Option Note :=
  if n.id = o.id then (if o.endp > e then some (n.moveStart e) else none) else some n

/-- Pointwise effect of a whole `trimStep` fold on a persistent-map entry. -/
def gAll (e : Int) (l : List Note) (n : Note) : Option Note :=
  l.foldl (fun acc o => acc.bind (gstep e o)) (some n)

/-! ## Helper lemmas -/

/-- `overlaps` in the flag-toggling editor reads only `value`, `position` and
`duration`, so toggling `isMasked` never changes it; toggling twice is the
identity. -/
theorem EditorV.toggleIfOverlaps_toggleIfOverlaps (pr vr : Int × Int) (n : EditorV.NoteV) :
    EditorV.toggleIfOverlaps pr vr (EditorV.toggleIfOverlaps pr vr n) = n := by
  unfold EditorV.toggleIfOverlaps
  by_cases h : EditorV.overlaps n pr vr
  · have h2 : EditorV.overlaps { n with isMasked := !n.isMasked } pr vr
        = EditorV.overlaps n pr vr := rfl
    simp [h, h2]
  · simp [h]

theorem EditorV.map_toggle_toggle (pr vr : Int × Int) (l : List (String × EditorV.NoteV)) :
    (l.map (fun kv => (kv.1, EditorV.toggleIfOverlaps pr vr kv.2))).map
        (fun kv => (kv.1, EditorV.toggleIfOverlaps pr vr kv.2)) = l := by
  induction l with
  | nil => rfl
  | cons kv tl ih =>
    simp [ih, EditorV.toggleIfOverlaps_toggleIfOverlaps]

/-- Writing back the entry a list already holds is the identity. -/
theorem list_set_getD_self (l : List (List Int)) (v : Nat) (hv : v < l.length) :
    l.set v (l.getD v []) = l := by
  apply List.ext_getElem (by simp)
  intro i h1 h2
  rw [List.getElem_set]
  by_cases h : v = i
  · subst h
    rw [if_pos rfl, List.getD_eq_getElem l [] hv]
  · rw [if_neg h]

/-- `sortMaskSet` produces the ascending enumeration of the finset of its
input: the canonical form used throughout the mask proofs. -/
theorem sortMaskSet_eq_sort (l : List Int) :
    sortMaskSet l = l.toFinset.sort (· ≤ ·) := by
  apply List.eq_of_perm_of_sorted ?_ (List.sorted_insertionSort _ _) (Finset.sort_sorted _ _)
  have h1 : l.dedup.toFinset = l.toFinset := by
    ext a
    simp
  have h2 : l.dedup.Perm l.toFinset.toList := by
    rw [← h1]
    exact (List.toFinset_toList l.nodup_dedup).symm
  exact ((List.perm_insertionSort _ _).trans h2).trans (Finset.sort_perm_toList _ _).symm

/-- Removing by membership-filter is set difference on the finsets. -/
theorem filter_not_contains_toFinset (l m : List Int) :
    (l.filter (fun i => !(m.contains i))).toFinset = l.toFinset \ m.toFinset := by
  ext a
  simp [List.mem_filter, List.elem_iff]

theorem laneSorted_sortMaskSet (l : List Int) : laneSorted (sortMaskSet l) := by
  rw [sortMaskSet_eq_sort]
  exact Finset.sort_sorted_lt _

theorem mem_sortMaskSet (i : Int) (l : List Int) : i ∈ sortMaskSet l ↔ i ∈ l := by
  rw [sortMaskSet_eq_sort, Finset.mem_sort, List.mem_toFinset]

theorem mem_lrange_of (a b i : Int) (h1 : a ≤ i) (h2 : i < b) : i ∈ lrange a b := by
  unfold lrange
  rw [if_pos (le_of_lt (lt_of_le_of_lt h1 h2))]
  refine List.mem_map.mpr ⟨(i - a).toNat, ?_, ?_⟩
  · rw [List.mem_range]
    omega
  · omega

theorem mem_lrange_le (a b i : Int) (hab : a ≤ b) (h : i ∈ lrange a b) :
    a ≤ i ∧ i < b := by
  unfold lrange at h
  rw [if_pos hab] at h
  obtain ⟨k, hk, hik⟩ := List.mem_map.mp h
  rw [List.mem_range] at hk
  omega

theorem lrange_sorted (a b : Int) (hab : a ≤ b) : laneSorted (lrange a b) := by
  unfold lrange
  rw [if_pos hab]
  refine List.Pairwise.map _ (fun k k' hkk => ?_) (List.pairwise_lt_range _)
  omega

/-- An entry of some lane read through `getD` comes from an actual lane. -/
theorem getD_lane_mem (masks : List (List Int)) (v : Nat) (i : Int)
    (h : i ∈ masks.getD v []) : ∃ l ∈ masks, i ∈ l := by
  by_cases hv : v < masks.length
  · refine ⟨masks[v], List.getElem_mem hv, ?_⟩
    rwa [List.getD_eq_getElem _ [] hv] at h
  · rw [List.getD_eq_default] at h
    · cases h
    · omega

theorem getD_set_self_of_lt (masks : List (List Int)) (v : Nat) (lane : List Int)
    (hv : v < masks.length) : (masks.set v lane).getD v [] = lane := by
  have hv' : v < (masks.set v lane).length := by simpa using hv
  rw [List.getD_eq_getElem _ [] hv', List.getElem_set_self]

theorem getD_set_of_ne (masks : List (List Int)) (v v' : Nat) (lane : List Int)
    (h : v ≠ v') : (masks.set v lane).getD v' [] = masks.getD v' [] := by
  by_cases hv' : v' < masks.length
  · have hv'' : v' < (masks.set v lane).length := by simpa using hv'
    rw [List.getD_eq_getElem _ [] hv'', List.getD_eq_getElem _ [] hv',
      List.getElem_set_ne h]
  · rw [List.getD_eq_default _ _ (by simp; omega), List.getD_eq_default _ _ (by omega)]

/-- The boolean `overlaps` of the id-keyed editor, as arithmetic. -/
theorem overlaps_eq_true_iff (note : Note) (pr vr : Int × Int) :
    Editor.overlaps note pr vr = true ↔
      ((vr.1 ≤ note.pitch ∧ note.pitch ≤ vr.2) ∧
       ((pr.1 ≤ note.position ∧ note.position < pr.2) ∨
        (note.position < pr.1 ∧ pr.1 < note.position + note.duration))) := by
  unfold Editor.overlaps
  dsimp only
  split_ifs with h1 h2 h3 <;>
    simp_all <;>
    omega

/-- `overlaps` against a full pitch range is exactly non-empty interval
intersection, for notes with positive duration and in-range pitch. -/
theorem overlaps_intersect_iff (o : Note) (ns ne minP maxP : Int)
    (hdur : 1 ≤ o.duration) (hnsne : ns ≤ ne)
    (hp : minP ≤ o.pitch ∧ o.pitch ≤ maxP) :
    Editor.overlaps o (ns, ne) (minP, maxP) = true ↔ (o.start < ne ∧ ns < o.endp) := by
  rw [overlaps_eq_true_iff]
  unfold Note.start Note.endp
  constructor
  · rintro ⟨-, h | h⟩ <;> omega
  · intro h
    refine ⟨hp, ?_⟩
    omega

/-- A strictly sorted list is recovered from its finset by the ascending
sort (strict sortedness gives both `Nodup` and weak sortedness). -/
theorem sort_toFinset_of_sorted_lt (l : List Int) (h : List.Sorted (· < ·) l) :
    l.toFinset.sort (· ≤ ·) = l :=
  (List.toFinset_sort (· ≤ ·) (h.imp ne_of_lt)).mpr (h.imp le_of_lt)

theorem addMask_generationMasks (s : Editor) (v : Nat) (m : List Int) :
    (Editor.addMask s v m).generationMasks
      = s.generationMasks.set v (sortMaskSet (s.generationMasks.getD v [] ++ m)) := rfl

theorem addMask_notesMap (s : Editor) (v : Nat) (m : List Int) :
    (Editor.addMask s v m).notesMap = s.notesMap := rfl

theorem addMask_tempNotesMap (s : Editor) (v : Nat) (m : List Int) :
    (Editor.addMask s v m).tempNotesMap = s.tempNotesMap := rfl

theorem removeMask_generationMasks (s : Editor) (v : Nat) (m : List Int) :
    (Editor.removeMask s v m).generationMasks
      = s.generationMasks.set v (sortMaskSet
          ((s.generationMasks.getD v []).filter (fun i => !(m.contains i)))) := rfl

theorem laneSorted_getD_set (masks : List (List Int)) (v : Nat) (lane : List Int)
    (hlane : laneSorted lane) : laneSorted ((masks.set v lane).getD v []) := by
  by_cases hv : v < masks.length
  · rw [getD_set_self_of_lt _ _ _ hv]
    exact hlane
  · rw [List.getD_eq_default]
    · exact List.sorted_nil
    · simp
      omega

theorem addMask_masksGood (s : Editor) (t : Int) (v : Nat) (m : List Int)
    (hgood : masksGood t s.generationMasks) (hm : ∀ i ∈ m, 0 ≤ i ∧ i < t) :
    masksGood t (Editor.addMask s v m).generationMasks := by
  rw [addMask_generationMasks]
  intro l hl
  rcases List.mem_or_eq_of_mem_set hl with h | h
  · exact hgood l h
  · subst h
    refine ⟨laneSorted_sortMaskSet _, fun i hi => ?_⟩
    rcases List.mem_append.mp ((mem_sortMaskSet i _).mp hi) with h | h
    · obtain ⟨l', hl', hil'⟩ := getD_lane_mem _ _ _ h
      exact (hgood l' hl').2 i hil'
    · exact hm i h

theorem removeMask_masksGood (s : Editor) (t : Int) (v : Nat) (m : List Int)
    (hgood : masksGood t s.generationMasks) :
    masksGood t (Editor.removeMask s v m).generationMasks := by
  rw [removeMask_generationMasks]
  intro l hl
  rcases List.mem_or_eq_of_mem_set hl with h | h
  · exact hgood l h
  · subst h
    refine ⟨laneSorted_sortMaskSet _, fun i hi => ?_⟩
    have h1 := List.mem_of_mem_filter ((mem_sortMaskSet i _).mp hi)
    obtain ⟨l', hl', hil'⟩ := getD_lane_mem _ _ _ h1
    exact (hgood l' hl').2 i hil'

theorem mem_getD_addMask_of_mem (s : Editor) (v v' : Nat) (m : List Int) (i : Int)
    (h : i ∈ s.generationMasks.getD v' []) :
    i ∈ (Editor.addMask s v m).generationMasks.getD v' [] := by
  rw [addMask_generationMasks]
  by_cases hvv : v = v'
  · subst hvv
    by_cases hv : v < s.generationMasks.length
    · rw [getD_set_self_of_lt _ _ _ hv, mem_sortMaskSet]
      exact List.mem_append_left _ h
    · rw [List.set_eq_of_length_le (by omega)]
      exact h
  · rw [getD_set_of_ne _ _ _ _ hvv]
    exact h

theorem mem_getD_addMask_self (s : Editor) (v : Nat) (m : List Int) (i : Int)
    (hv : v < s.generationMasks.length) (hi : i ∈ m) :
    i ∈ (Editor.addMask s v m).generationMasks.getD v [] := by
  rw [addMask_generationMasks, getD_set_self_of_lt _ _ _ hv, mem_sortMaskSet]
  exact List.mem_append_right _ hi

theorem foldl_addMask_masksGood (t : Int) (pr : Int × Int) (l : List Note) :
    ∀ st : Editor, masksGood t st.generationMasks →
      (∀ n ∈ l, ∀ i ∈ lrange (max pr.1 n.start) (min pr.2 n.endp), 0 ≤ i ∧ i < t) →
      masksGood t ((l.foldl (fun st note =>
        Editor.addMask st note.voice
          (lrange (max pr.1 note.start) (min pr.2 note.endp))) st)).generationMasks := by
  induction l with
  | nil => exact fun st h _ => h
  | cons n l ih =>
    intro st h hkey
    rw [List.foldl_cons]
    exact ih _ (addMask_masksGood _ _ _ _ h (hkey n (List.mem_cons_self n l)))
      (fun n' hn' i hi => hkey n' (List.mem_cons_of_mem _ hn') i hi)

theorem foldl_addMask_state (pr : Int × Int) (l : List Note) :
    ∀ st : Editor,
      ((l.foldl (fun st note =>
        Editor.addMask st note.voice
          (lrange (max pr.1 note.start) (min pr.2 note.endp))) st)).notesMap = st.notesMap ∧
      ((l.foldl (fun st note =>
        Editor.addMask st note.voice
          (lrange (max pr.1 note.start) (min pr.2 note.endp))) st)).tempNotesMap
        = st.tempNotesMap ∧
      ((l.foldl (fun st note =>
        Editor.addMask st note.voice
          (lrange (max pr.1 note.start) (min pr.2 note.endp))) st)).generationMasks.length
        = st.generationMasks.length := by
  induction l with
  | nil => exact fun st => ⟨rfl, rfl, rfl⟩
  | cons n l ih =>
    intro st
    rw [List.foldl_cons]
    obtain ⟨h1, h2, h3⟩ := ih (Editor.addMask st n.voice
      (lrange (max pr.1 n.start) (min pr.2 n.endp)))
    refine ⟨h1.trans rfl, h2.trans rfl, h3.trans ?_⟩
    rw [addMask_generationMasks, List.length_set]

theorem foldl_addMask_mono (pr : Int × Int) (l : List Note) :
    ∀ (st : Editor) (v' : Nat) (i : Int), i ∈ st.generationMasks.getD v' [] →
      i ∈ ((l.foldl (fun st note =>
        Editor.addMask st note.voice
          (lrange (max pr.1 note.start) (min pr.2 note.endp))) st)).generationMasks.getD v' [] := by
  induction l with
  | nil => exact fun st v' i h => h
  | cons n l ih =>
    intro st v' i h
    rw [List.foldl_cons]
    exact ih _ v' i (mem_getD_addMask_of_mem _ _ _ _ _ h)

/-- The floor-quantized start never exceeds the ceil-quantized end. -/
theorem maskLanePositionRange_le (qs : Int) (sw aX bX : Rat)
    (hqs : 0 < qs) (hsw : 0 < sw) :
    (Interactions.maskLanePositionRange qs sw aX bX).1
      ≤ (Interactions.maskLanePositionRange qs sw aX bX).2 := by
  unfold Interactions.maskLanePositionRange
  dsimp only
  unfold Interactions.quantizePosition Interactions.Rounding.apply
  set startX := if aX ≤ bX then aX else bX with hstart
  set endX := if aX > bX then aX else bX with hend
  have hxy : startX ≤ endX := by
    rw [hstart, hend]
    by_cases h : aX ≤ bX
    · rw [if_pos h]
      by_cases h2 : aX > bX
      · rw [if_pos h2]
      · rw [if_neg h2]
        exact h
    · rw [if_neg h]
      by_cases h2 : aX > bX
      · rw [if_pos h2]
        exact le_of_not_le h
      · rw [if_neg h2]
  have hq0 : (0 : Rat) < (qs : Rat) := by exact_mod_cast hqs
  have hfc : ⌊startX / sw / (qs : Rat)⌋ ≤ ⌈endX / sw / (qs : Rat)⌉ := by
    have h1 : startX / sw / (qs : Rat) ≤ endX / sw / (qs : Rat) :=
      div_le_div_of_nonneg_right ((div_le_div_iff_of_pos_right hsw).mpr hxy) hq0.le
    have h2 : ((⌊startX / sw / (qs : Rat)⌋ : Int) : Rat)
        ≤ ((⌈endX / sw / (qs : Rat)⌉ : Int) : Rat) :=
      (Int.floor_le _).trans (h1.trans (Int.le_ceil _))
    exact_mod_cast h2
  exact mul_le_mul_of_nonneg_right hfc (le_of_lt hqs)

theorem moveStart_id (n : Note) (e : Int) : (Note.moveStart n e).id = n.id := rfl

theorem moveStart_position (n : Note) (e : Int) : (Note.moveStart n e).position = e := rfl

theorem gstep_of_ne (e : Int) (o n : Note) (h : n.id ≠ o.id) : gstep e o n = some n := by
  unfold gstep
  rw [if_neg h]

theorem bind_foldl_none (e : Int) (l : List Note) :
    l.foldl (fun acc o => acc.bind (gstep e o)) none = none := by
  induction l with
  | nil => rfl
  | cons o l ih =>
    rw [List.foldl_cons]
    exact ih

theorem gAll_cons (e : Int) (o : Note) (l : List Note) (n : Note) :
    gAll e (o :: l) n = (gstep e o n).bind (fun m => gAll e l m) := by
  unfold gAll
  rw [List.foldl_cons, Option.some_bind]
  cases h : gstep e o n with
  | none =>
    rw [Option.none_bind]
    exact bind_foldl_none e l
  | some m =>
    rw [Option.some_bind]

theorem gAll_of_not_mem_id (e : Int) (l : List Note) (n : Note)
    (h : ∀ o ∈ l, o.id ≠ n.id) : gAll e l n = some n := by
  induction l with
  | nil => rfl
  | cons o l ih =>
    rw [gAll_cons, gstep_of_ne e o n (h o (List.mem_cons_self o l)).symm, Option.some_bind]
    exact ih (fun o' ho' => h o' (List.mem_cons_of_mem _ ho'))

theorem gAll_id_of_some (e : Int) (l : List Note) :
    ∀ (n m : Note), gAll e l n = some m → m.id = n.id := by
  induction l with
  | nil =>
    intro n m h
    unfold gAll at h
    rw [List.foldl_nil] at h
    cases h
    rfl
  | cons o l ih =>
    intro n m h
    rw [gAll_cons] at h
    by_cases hid : n.id = o.id
    · by_cases he : o.endp > e
      · rw [show gstep e o n = some (n.moveStart e) from by
            unfold gstep
            rw [if_pos hid, if_pos he],
          Option.some_bind] at h
        have hmid := ih _ _ h
        rwa [moveStart_id] at hmid
      · rw [show gstep e o n = none from by
            unfold gstep
            rw [if_pos hid, if_neg he],
          Option.none_bind] at h
        cases h
    · rw [gstep_of_ne e o n hid, Option.some_bind] at h
      exact ih _ _ h

theorem gAll_split (e : Int) (l₁ l₂ : List Note) (n : Note)
    (h1 : ∀ o ∈ l₁, o.id ≠ n.id) (h2 : ∀ o ∈ l₂, o.id ≠ n.id) :
    gAll e (l₁ ++ n :: l₂) n = if n.endp > e then some (n.moveStart e) else none := by
  have hpref : gAll e (l₁ ++ n :: l₂) n = gAll e (n :: l₂) n := by
    induction l₁ with
    | nil => rfl
    | cons o l ih =>
      rw [List.cons_append, gAll_cons,
        gstep_of_ne e o n (h1 o (List.mem_cons_self o l)).symm, Option.some_bind]
      exact ih (fun o' ho' => h1 o' (List.mem_cons_of_mem _ ho'))
  rw [hpref, gAll_cons]
  rw [show gstep e n n = if n.endp > e then some (n.moveStart e) else none from by
    unfold gstep
    rw [if_pos rfl]]
  by_cases he : n.endp > e
  · rw [if_pos he, Option.some_bind]
    refine gAll_of_not_mem_id e l₂ _ (fun o ho => ?_)
    rw [moveStart_id]
    exact h2 o ho
  · rw [if_neg he, Option.none_bind]

theorem trimStep_notesMap (e : Int) (st : Editor) (o : Note) :
    (Editor.trimStep e st o).notesMap = st.notesMap.filterMap (gstep e o) := by
  unfold Editor.trimStep Editor.updateNoteById
  by_cases h : o.endp > e
  · rw [if_pos h]
    show st.notesMap.map (fun n => if n.id = o.id then n.moveStart e else n)
        = st.notesMap.filterMap (gstep e o)
    induction st.notesMap with
    | nil => rfl
    | cons a l ih =>
      by_cases ha : a.id = o.id
      · have hga : gstep e o a = some (a.moveStart e) := by
          unfold gstep
          rw [if_pos ha, if_pos h]
        simp only [List.map_cons, List.filterMap_cons, hga, if_pos ha, ih]
      · have hga : gstep e o a = some a := gstep_of_ne e o a ha
        simp only [List.map_cons, List.filterMap_cons, hga, if_neg ha, ih]
  · rw [if_neg h]
    show st.notesMap.filter (fun n => n.id ≠ o.id) = st.notesMap.filterMap (gstep e o)
    induction st.notesMap with
    | nil => rfl
    | cons a l ih =>
      simp only [decide_not] at ih
      by_cases ha : a.id = o.id
      · have hga : gstep e o a = none := by
          unfold gstep
          rw [if_pos ha, if_neg h]
        simp [List.filter_cons, List.filterMap_cons, hga, ha, ih]
      · have hga : gstep e o a = some a := gstep_of_ne e o a ha
        simp [List.filter_cons, List.filterMap_cons, hga, ha, ih]

theorem foldl_trimStep_notesMap (e : Int) (l : List Note) :
    ∀ st : Editor, (l.foldl (Editor.trimStep e) st).notesMap
      = st.notesMap.filterMap (gAll e l) := by
  induction l with
  | nil =>
    intro st
    rw [List.foldl_nil]
    have hall : ∀ L : List Note, L.filterMap (gAll e []) = L := by
      intro L
      induction L with
      | nil => rfl
      | cons a L ihL => simp [List.filterMap_cons, show gAll e [] a = some a from rfl, ihL]
    exact (hall st.notesMap).symm
  | cons o l ih =>
    intro st
    rw [List.foldl_cons, ih, trimStep_notesMap, List.filterMap_filterMap]
    congr 1
    funext n
    rw [gAll_cons]

/-- Two members of an id-pairwise-distinct list with the same id coincide. -/
theorem id_unique (l : List Note) (h : l.Pairwise (fun a b => a.id ≠ b.id))
    {a b : Note} (ha : a ∈ l) (hb : b ∈ l) (hid : a.id = b.id) : a = b := by
  by_contra hne
  have hsymm : Symmetric (fun a b : Note => a.id ≠ b.id) := fun x y hxy => hxy ∘ Eq.symm
  exact (h.forall hsymm ha hb hne) hid

theorem mem_ovlist_iff (minPitch maxPitch : Int) (s : Editor) (note o : Note) :
    (o ∈ (Editor.allNotes s).filter (fun otherNote =>
      otherNote.id != note.id && otherNote.voice == note.voice &&
        Editor.overlaps otherNote (note.start, note.endp) (minPitch, maxPitch))) ↔
    (o ∈ Editor.allNotes s ∧ o.id ≠ note.id ∧ o.voice = note.voice ∧
      Editor.overlaps o (note.start, note.endp) (minPitch, maxPitch) = true) := by
  rw [List.mem_filter]
  simp [and_assoc]

/-! ## Claim theorems -/

/-- C1: the claim says that after `endNoteDrag(X)`, a note Y occupying the
same `(pitch, position)` as the dragged note X is removed and X remains.  The
code executes `this.notesMap.delete(note.id)` — deleting the dragged note X
itself — so at this concrete store the result keeps Y (id 1) and drops X
(id 0), the opposite of the claim. -/
theorem C1_endNoteDrag_deletes_dragged_note :
    (Cococo.Editor.endNoteDrag
        { notesMap := [{ id := 0, pitch := 60, position := 0, duration := 2 },
                       { id := 1, pitch := 60, position := 0, duration := 2 }],
          tempNotesMap := [] }
        { id := 0, pitch := 60, position := 0, duration := 2 }).notesMap
      = [{ id := 1, pitch := 60, position := 0, duration := 2 }] := by
  decide

/-- C2: the claim says `removeNote(note)` terminates and deletes the entry
keyed by the note's id.  The body of `removeNote` calls `removeNote` itself
(not `_removeNote`), so the call never returns: for every amount of fuel the
fuelled model produces no result. -/
theorem C2_removeNote_never_returns (fuel : Nat) (s : Cococo.Editor) (note : Cococo.Note) :
    Cococo.Editor.removeNoteFuel fuel s note = none := by
  induction fuel with
  | zero => rfl
  | succ n ih => exact ih

/-- C3: the claim says `setNotePlaying(pitch, position)` is a silent no-op
when no note (persistent or temp) sits at `(pitch, position)`.  In the code
the unguarded `this.tempNotesMap.get(note.id)` dereferences `undefined` on a
miss and throws a `TypeError`, so the operation signals an error instead. -/
theorem C3_setNotePlaying_miss_throws (s : Cococo.Editor) (pitch position : Int)
    (h : ∀ n ∈ Cococo.Editor.allNotes s, ¬ (n.pitch = pitch ∧ n.position = position)) :
    Cococo.Editor.setNotePlaying s pitch position = Except.error () := by
  have hfind : Cococo.Editor.getNoteByPitchPosition s pitch position = none := by
    unfold Cococo.Editor.getNoteByPitchPosition
    rw [List.find?_eq_none]
    intro n hn
    have := h n hn
    simp only [Bool.and_eq_true, beq_iff_eq]
    intro hc
    exact this ⟨hc.1, hc.2⟩
  unfold Cococo.Editor.setNotePlaying
  rw [hfind]

theorem C3_setNotePlaying_miss_throws_witness :
    (∀ n ∈ Cococo.Editor.allNotes
        { notesMap := [{ id := 0, pitch := 60, position := 4, duration := 2 }],
          tempNotesMap := [] },
      ¬ (n.pitch = 61 ∧ n.position = 0)) ∧
    Cococo.Editor.setNotePlaying
        { notesMap := [{ id := 0, pitch := 60, position := 4, duration := 2 }],
          tempNotesMap := [] } 61 0 = Except.error () :=
  ⟨by decide,
   C3_setNotePlaying_miss_throws
     { notesMap := [{ id := 0, pitch := 60, position := 4, duration := 2 }],
       tempNotesMap := [] } 61 0 (by decide)⟩

/-- C4: the claim says *no* other same-voice note overlaps after
`trimOverlappingVoices` and that fully-covered notes are "deleted outright".
But `_removeNote` deletes only from the persistent map while the scan runs
over `allNotes`: a fully-covered *temp* note survives.  Here the temp note
(id 1, `[2,4)`, same voice) still overlaps the trimmed note's `[0,8)`. -/
theorem C4_trim_counterexample :
    ∃ o ∈ Cococo.Editor.allNotes
      (Cococo.Editor.trimOverlappingVoices 36 81
        { notesMap := [{ id := 0, pitch := 60, position := 0, duration := 8 }],
          tempNotesMap := [{ id := 1, pitch := 60, position := 2, duration := 2 }] }
        { id := 0, pitch := 60, position := 0, duration := 8 }),
      o.id ≠ 0 ∧ o.voice = 0 ∧ o.start < 8 ∧ 0 < o.endp := by
  decide

/-- C4 (amended): after `trimOverlappingVoices(note)`, no other note **of the
persistent collection** in `note.voice` overlaps `[note.start, note.end)`:
every overlapping persistent note whose end extends past `note.end` survives
precisely as its `moveStart(note.end)` truncation, and every other
overlapping persistent note is deleted (no persistent note with its id
remains).  A fully-covered *temp* note is not removed, since `_removeNote`
touches only the persistent map. -/
theorem C4_trimOverlappingVoices_monophony
    (minPitch maxPitch : Int) (s : Cococo.Editor) (note : Cococo.Note)
    (hpitch : ∀ n ∈ Cococo.Editor.allNotes s, minPitch ≤ n.pitch ∧ n.pitch ≤ maxPitch)
    (hdur : ∀ n ∈ Cococo.Editor.allNotes s, 1 ≤ n.duration)
    (hdnote : 1 ≤ note.duration)
    (hids : (Cococo.Editor.allNotes s).Pairwise (fun a b => a.id ≠ b.id)) :
    (∀ o ∈ (Cococo.Editor.trimOverlappingVoices minPitch maxPitch s note).notesMap,
        o.id ≠ note.id → o.voice = note.voice →
        ¬ (o.start < note.endp ∧ note.start < o.endp)) ∧
    (∀ o ∈ s.notesMap, o.id ≠ note.id → o.voice = note.voice →
        o.start < note.endp → note.start < o.endp →
        (note.endp < o.endp →
          Cococo.Note.moveStart o note.endp
            ∈ (Cococo.Editor.trimOverlappingVoices minPitch maxPitch s note).notesMap) ∧
        (o.endp ≤ note.endp →
          ∀ o' ∈ (Cococo.Editor.trimOverlappingVoices minPitch maxPitch s note).notesMap,
            o'.id ≠ o.id)) := by
  have hnsne : note.start ≤ note.endp := by
    unfold Cococo.Note.start Cococo.Note.endp
    omega
  set ov := (Cococo.Editor.allNotes s).filter (fun otherNote =>
    otherNote.id != note.id && otherNote.voice == note.voice &&
      Cococo.Editor.overlaps otherNote (note.start, note.endp) (minPitch, maxPitch)) with hov
  have hmaps : (Cococo.Editor.trimOverlappingVoices minPitch maxPitch s note).notesMap
      = s.notesMap.filterMap (Cococo.gAll note.endp ov) := by
    unfold Cococo.Editor.trimOverlappingVoices
    dsimp only
    rw [← hov]
    exact Cococo.foldl_trimStep_notesMap _ _ _
  have hpair : ov.Pairwise (fun a b => a.id ≠ b.id) :=
    List.Pairwise.sublist (List.filter_sublist _) hids
  have hsubset : ∀ o ∈ ov, o ∈ Cococo.Editor.allNotes s := fun o ho => (List.mem_filter.mp ho).1
  constructor
  · intro o' ho' hid hvoice
    rw [hmaps] at ho'
    obtain ⟨n, hn, hg⟩ := List.mem_filterMap.mp ho'
    have hnall : n ∈ Cococo.Editor.allNotes s := List.mem_append_left _ hn
    by_cases hmem : n ∈ ov
    · obtain ⟨l₁, l₂, hsplit⟩ := List.append_of_mem hmem
      have hpair2 := hpair
      rw [hsplit] at hpair2
      obtain ⟨hp1, hp2, hcross⟩ := List.pairwise_append.mp hpair2
      have hside1 : ∀ x ∈ l₁, x.id ≠ n.id :=
        fun x hx => hcross x hx n (List.mem_cons_self _ _)
      have hside2 : ∀ x ∈ l₂, x.id ≠ n.id :=
        fun x hx => ((List.pairwise_cons.mp hp2).1 x hx).symm
      rw [hsplit, Cococo.gAll_split _ _ _ _ hside1 hside2] at hg
      by_cases he : n.endp > note.endp
      · rw [if_pos he] at hg
        cases hg
        intro hcon
        have hp1' := hcon.1
        unfold Cococo.Note.start at hp1'
        rw [Cococo.moveStart_position] at hp1'
        exact absurd hp1' (lt_irrefl _)
      · rw [if_neg he] at hg
        cases hg
    · have hgid : Cococo.gAll note.endp ov n = some n := by
        apply Cococo.gAll_of_not_mem_id
        intro o ho hoid
        exact hmem (by
          rwa [Cococo.id_unique (Cococo.Editor.allNotes s) hids (hsubset o ho) hnall hoid] at ho)
      rw [hgid] at hg
      have hno' : o' = n := by
        injection hg with hinj
        exact hinj.symm
      rw [hno'] at hid hvoice ⊢
      intro hcon
      have hov2 : Cococo.Editor.overlaps n (note.start, note.endp) (minPitch, maxPitch) = true :=
        (Cococo.overlaps_intersect_iff n note.start note.endp minPitch maxPitch
          (hdur n hnall) hnsne (hpitch n hnall)).mpr hcon
      exact hmem ((Cococo.mem_ovlist_iff minPitch maxPitch s note n).mpr
        ⟨hnall, hid, hvoice, hov2⟩)
  · intro o ho hid hvoice h1 h2
    have hoall : o ∈ Cococo.Editor.allNotes s := List.mem_append_left _ ho
    have hov2 : Cococo.Editor.overlaps o (note.start, note.endp) (minPitch, maxPitch) = true :=
      (Cococo.overlaps_intersect_iff o note.start note.endp minPitch maxPitch
        (hdur o hoall) hnsne (hpitch o hoall)).mpr ⟨h1, h2⟩
    have hmem : o ∈ ov :=
      (Cococo.mem_ovlist_iff minPitch maxPitch s note o).mpr ⟨hoall, hid, hvoice, hov2⟩
    obtain ⟨l₁, l₂, hsplit⟩ := List.append_of_mem hmem
    have hpair2 := hpair
    rw [hsplit] at hpair2
    obtain ⟨hp1, hp2, hcross⟩ := List.pairwise_append.mp hpair2
    have hside1 : ∀ x ∈ l₁, x.id ≠ o.id :=
      fun x hx => hcross x hx o (List.mem_cons_self _ _)
    have hside2 : ∀ x ∈ l₂, x.id ≠ o.id :=
      fun x hx => ((List.pairwise_cons.mp hp2).1 x hx).symm
    have hgall : Cococo.gAll note.endp ov o
        = if o.endp > note.endp then some (o.moveStart note.endp) else none := by
      rw [hsplit]
      exact Cococo.gAll_split _ _ _ _ hside1 hside2
    constructor
    · intro hlt
      rw [hmaps]
      refine List.mem_filterMap.mpr ⟨o, ho, ?_⟩
      rw [hgall, if_pos hlt]
    · intro hle o' ho' heq
      rw [hmaps] at ho'
      obtain ⟨n, hn, hg⟩ := List.mem_filterMap.mp ho'
      have hid2 : o'.id = n.id := Cococo.gAll_id_of_some _ _ _ _ hg
      have hno : n = o := Cococo.id_unique _ hids (List.mem_append_left _ hn) hoall
        (by omega)
      rw [hno, hgall, if_neg (by omega)] at hg
      cases hg

theorem C4_trimOverlappingVoices_monophony_witness :
    (∀ n ∈ Cococo.Editor.allNotes
        { notesMap := [{ id := 0, pitch := 60, position := 0, duration := 8 },
                       { id := 1, pitch := 60, position := 4, duration := 4 }],
          tempNotesMap := [] },
      (36 : Int) ≤ n.pitch ∧ n.pitch ≤ 81) ∧
    (∀ n ∈ Cococo.Editor.allNotes
        { notesMap := [{ id := 0, pitch := 60, position := 0, duration := 8 },
                       { id := 1, pitch := 60, position := 4, duration := 4 }],
          tempNotesMap := [] },
      1 ≤ n.duration) ∧
    (1 ≤ ({ id := 0, pitch := 60, position := 0, duration := 8 } : Cococo.Note).duration) ∧
    ((Cococo.Editor.allNotes
        { notesMap := [{ id := 0, pitch := 60, position := 0, duration := 8 },
                       { id := 1, pitch := 60, position := 4, duration := 4 }],
          tempNotesMap := [] }).Pairwise (fun a b => a.id ≠ b.id)) ∧
    (∀ o ∈ (Cococo.Editor.trimOverlappingVoices 36 81
        { notesMap := [{ id := 0, pitch := 60, position := 0, duration := 8 },
                       { id := 1, pitch := 60, position := 4, duration := 4 }],
          tempNotesMap := [] }
        { id := 0, pitch := 60, position := 0, duration := 8 }).notesMap,
        o.id ≠ ({ id := 0, pitch := 60, position := 0, duration := 8 } : Cococo.Note).id →
        o.voice = ({ id := 0, pitch := 60, position := 0, duration := 8 } : Cococo.Note).voice →
        ¬ (o.start < ({ id := 0, pitch := 60, position := 0, duration := 8 } : Cococo.Note).endp ∧
           ({ id := 0, pitch := 60, position := 0, duration := 8 } : Cococo.Note).start < o.endp)) :=
  ⟨by decide, by decide, by decide, by decide,
   (C4_trimOverlappingVoices_monophony 36 81
      { notesMap := [{ id := 0, pitch := 60, position := 0, duration := 8 },
                     { id := 1, pitch := 60, position := 4, duration := 4 }],
        tempNotesMap := [] }
      { id := 0, pitch := 60, position := 0, duration := 8 }
      (by decide) (by decide) (by decide) (by decide)).1⟩

/-- C5: `maskNotes` adds every index of the intersection of an overlapping
note's `[start, end)` with `positionRange` to that note's voice's mask and
modifies no note; in particular the spec's scenario — one SOPRANO note
`{pitch 60, position 0, duration 4}`, `maskNotes([2,8],[60,60])` — yields the
SOPRANO mask `[2, 3]`. -/
theorem C5_maskNotes_adds_intersection (s : Cococo.Editor) (pr vr : Int × Int)
    (n : Cococo.Note) (i : Int)
    (hlen : s.generationMasks.length = 4) (hv : n.voice < 4)
    (hn : n ∈ Cococo.Editor.allNotes s)
    (hov : Cococo.Editor.overlaps n pr vr = true)
    (hi1 : max pr.1 n.start ≤ i) (hi2 : i < min pr.2 n.endp) :
    (i ∈ (Cococo.Editor.maskNotes s pr vr).generationMasks.getD n.voice [] ∧
     (Cococo.Editor.maskNotes s pr vr).notesMap = s.notesMap ∧
     (Cococo.Editor.maskNotes s pr vr).tempNotesMap = s.tempNotesMap) ∧
    (Cococo.Editor.maskNotes
        { notesMap := [{ id := 1, pitch := 60, position := 0, duration := 4,
                         voice := Cococo.SOPRANO }],
          tempNotesMap := [] } (2, 8) (60, 60)).generationMasks.getD Cococo.SOPRANO []
      = [2, 3] := by
  constructor
  · unfold Cococo.Editor.maskNotes
    dsimp only
    set l := (Cococo.Editor.allNotes s).filter
      (fun note => Cococo.Editor.overlaps note pr vr) with hl
    have hmem : n ∈ l := List.mem_filter.mpr ⟨hn, hov⟩
    obtain ⟨l₁, l₂, hsplit⟩ := List.append_of_mem hmem
    refine ⟨?_, (Cococo.foldl_addMask_state pr l s).1,
      (Cococo.foldl_addMask_state pr l s).2.1⟩
    rw [hsplit, List.foldl_append, List.foldl_cons]
    apply Cococo.foldl_addMask_mono
    apply Cococo.mem_getD_addMask_self
    · rw [(Cococo.foldl_addMask_state pr l₁ s).2.2, hlen]
      exact hv
    · exact Cococo.mem_lrange_of _ _ _ hi1 hi2
  · decide

theorem C5_maskNotes_adds_intersection_witness :
    (({ notesMap := [{ id := 1, pitch := 60, position := 0, duration := 4,
                       voice := Cococo.SOPRANO }],
        tempNotesMap := [] } : Cococo.Editor).generationMasks.length = 4) ∧
    (Cococo.SOPRANO < 4) ∧
    (({ id := 1, pitch := 60, position := 0, duration := 4,
        voice := Cococo.SOPRANO } : Cococo.Note) ∈ Cococo.Editor.allNotes
      { notesMap := [{ id := 1, pitch := 60, position := 0, duration := 4,
                       voice := Cococo.SOPRANO }],
        tempNotesMap := [] }) ∧
    (Cococo.Editor.overlaps
        { id := 1, pitch := 60, position := 0, duration := 4, voice := Cococo.SOPRANO }
        (2, 8) (60, 60) = true) ∧
    ((2 : Int) ∈ (Cococo.Editor.maskNotes
        { notesMap := [{ id := 1, pitch := 60, position := 0, duration := 4,
                         voice := Cococo.SOPRANO }],
          tempNotesMap := [] } (2, 8) (60, 60)).generationMasks.getD Cococo.SOPRANO []) :=
  ⟨by decide, by decide, by decide, by decide,
   ((C5_maskNotes_adds_intersection
      { notesMap := [{ id := 1, pitch := 60, position := 0, duration := 4,
                       voice := Cococo.SOPRANO }],
        tempNotesMap := [] } (2, 8) (60, 60)
      { id := 1, pitch := 60, position := 0, duration := 4, voice := Cococo.SOPRANO }
      2 (by decide) (by decide) (by decide) (by decide) (by decide) (by decide)).1).1⟩

/-- C6: the claimed round-trip `removeMask(v, m)` after `addMask(v, m)` fails
when `m` meets the existing mask: with voice 0 masked at `{1}`, adding `[1]`
and removing `[1]` leaves the empty mask, not `{1}`. -/
theorem C6_mask_roundtrip_counterexample :
    (Cococo.Editor.removeMask
        (Cococo.Editor.addMask
            { notesMap := [], tempNotesMap := [], generationMasks := [[1], [], [], []] }
            0 [1])
        0 [1]).generationMasks
      ≠ [[1], [], [], []] := by
  decide

/-- C6 (amended): the round-trip `addMask(v, m)` then `removeMask(v, m)`
restores `generationMasks` exactly, provided the supplied indices `m` are
disjoint from the voice's current mask (the current lane being, per the store
invariant, strictly ascending). -/
theorem C6_mask_roundtrip_of_disjoint (s : Cococo.Editor) (v : Nat) (m : List Int)
    (hv : v < s.generationMasks.length)
    (hsorted : List.Sorted (· < ·) (s.generationMasks.getD v []))
    (hdisj : ∀ i ∈ m, i ∉ s.generationMasks.getD v []) :
    (Cococo.Editor.removeMask (Cococo.Editor.addMask s v m) v m).generationMasks
      = s.generationMasks := by
  unfold Cococo.Editor.removeMask Cococo.Editor.addMask
  simp only [sortMaskSet_eq_sort]
  have hv' : v < (s.generationMasks.set v
      (((s.generationMasks.getD v [] ++ m).toFinset).sort (· ≤ ·))).length := by
    simpa using hv
  rw [List.getD_eq_getElem _ [] hv', List.getElem_set_self]
  have hdisj' : Disjoint (s.generationMasks.getD v []).toFinset m.toFinset := by
    rw [Finset.disjoint_right]
    intro a ham hal
    exact hdisj a (List.mem_toFinset.mp ham) (List.mem_toFinset.mp hal)
  rw [filter_not_contains_toFinset, Finset.sort_toFinset, List.toFinset_append,
    Finset.union_sdiff_right, sdiff_eq_self_iff_disjoint'.mpr hdisj',
    sort_toFinset_of_sorted_lt _ hsorted, List.set_set, list_set_getD_self _ _ hv]

theorem C6_mask_roundtrip_of_disjoint_witness :
    (0 < ({ notesMap := [], tempNotesMap := [],
            generationMasks := [[1], [], [], []] } : Cococo.Editor).generationMasks.length) ∧
    List.Sorted (· < ·)
      (({ notesMap := [], tempNotesMap := [],
          generationMasks := [[1], [], [], []] } : Cococo.Editor).generationMasks.getD 0 []) ∧
    (∀ i ∈ [2, 3],
      i ∉ ({ notesMap := [], tempNotesMap := [],
             generationMasks := [[1], [], [], []] } : Cococo.Editor).generationMasks.getD 0 []) ∧
    (Cococo.Editor.removeMask
        (Cococo.Editor.addMask
            { notesMap := [], tempNotesMap := [], generationMasks := [[1], [], [], []] }
            0 [2, 3])
        0 [2, 3]).generationMasks
      = [[1], [], [], []] :=
  ⟨by decide, by decide, by decide,
   C6_mask_roundtrip_of_disjoint
     { notesMap := [], tempNotesMap := [], generationMasks := [[1], [], [], []] }
     0 [2, 3] (by decide) (by decide) (by decide)⟩

/-- C7: the claim says `clampPosition(p) ∈ [0, totalSixteenths - 1]` for all
integers p.  `clampPosition` calls the two-argument lodash `clamp`, which
applies only the upper bound: at `p = -1` it returns `-1`, below the claimed
lower bound `0`.  The `clampPitch` half of the claim does hold. -/
theorem C7_clampPosition_missing_lower_bound
    (totalSixteenths minPitch maxPitch p : Int)
    (hT : 1 ≤ totalSixteenths) (hp : minPitch ≤ maxPitch) :
    Cococo.Interactions.clampPosition totalSixteenths (-1) = -1 ∧
    ¬ 0 ≤ Cococo.Interactions.clampPosition totalSixteenths (-1) ∧
    minPitch ≤ Cococo.Interactions.clampPitch minPitch maxPitch p ∧
    Cococo.Interactions.clampPitch minPitch maxPitch p ≤ maxPitch := by
  unfold Cococo.Interactions.clampPosition Cococo.Interactions.clampPitch
  omega

theorem C7_clampPosition_missing_lower_bound_witness :
    1 ≤ (64 : Int) ∧ (36 : Int) ≤ 81 ∧
    (Cococo.Interactions.clampPosition 64 (-1) = -1 ∧
     ¬ 0 ≤ Cococo.Interactions.clampPosition 64 (-1) ∧
     (36 : Int) ≤ Cococo.Interactions.clampPitch 36 81 100 ∧
     Cococo.Interactions.clampPitch 36 81 100 ≤ 81) :=
  ⟨by norm_num, by norm_num,
   C7_clampPosition_missing_lower_bound 64 36 81 100 (by norm_num) (by norm_num)⟩

/-- C8: the claim that mask entries are *always* within `[0, totalSixteenths)`
fails: the public `addMask` performs no clamping, so supplying the index `-1`
stores it. -/
theorem C8_addMask_below_range_counterexample :
    (Cococo.Editor.addMask { notesMap := [], tempNotesMap := [] } 0
        [-1]).generationMasks.getD 0 [] = [-1] ∧
    ¬ (0 : Int) ≤ -1 := by
  decide

/-- C8 (amended): after each public mask mutation the touched lane (and,
given the invariant held before, every lane) is strictly ascending with
distinct entries; entries stay within `[0, totalSixteenths)` provided the
pre-state entries and the supplied indices do — `addMask` and the mask-lane
assignment do not clamp their input. -/
theorem C8_mask_mutations_sorted_and_bounded
    (s : Cococo.Editor) (t : Int) (v : Nat) (m : List Int) (pr vr : Int × Int)
    (qs : Int) (sw aX bX : Rat) (hqs : 0 < qs) (hsw : 0 < sw)
    (hgood : Cococo.masksGood t s.generationMasks)
    (hdur : ∀ n ∈ Cococo.Editor.allNotes s, 1 ≤ n.duration)
    (hpr1 : 0 ≤ pr.1) (hpr12 : pr.1 ≤ pr.2) (hpr2 : pr.2 ≤ t) :
    Cococo.laneSorted ((Cococo.Editor.addMask s v m).generationMasks.getD v []) ∧
    ((∀ i ∈ m, 0 ≤ i ∧ i < t) →
      Cococo.masksGood t (Cococo.Editor.addMask s v m).generationMasks) ∧
    Cococo.laneSorted ((Cococo.Editor.removeMask s v m).generationMasks.getD v []) ∧
    Cococo.masksGood t (Cococo.Editor.removeMask s v m).generationMasks ∧
    Cococo.masksGood t (Cococo.Editor.maskNotes s pr vr).generationMasks ∧
    Cococo.laneSorted ((Cococo.Interactions.maskLaneAssign s v
        (Cococo.Interactions.maskLanePositionRange qs sw aX bX)).generationMasks.getD v []) ∧
    (0 ≤ (Cococo.Interactions.maskLanePositionRange qs sw aX bX).1 →
      (Cococo.Interactions.maskLanePositionRange qs sw aX bX).2 ≤ t →
      Cococo.masksGood t (Cococo.Interactions.maskLaneAssign s v
        (Cococo.Interactions.maskLanePositionRange qs sw aX bX)).generationMasks) := by
  refine ⟨?_, ?_, ?_, ?_, ?_, ?_, ?_⟩
  · rw [Cococo.addMask_generationMasks]
    exact Cococo.laneSorted_getD_set _ _ _ (Cococo.laneSorted_sortMaskSet _)
  · exact fun hm => Cococo.addMask_masksGood s t v m hgood hm
  · rw [Cococo.removeMask_generationMasks]
    exact Cococo.laneSorted_getD_set _ _ _ (Cococo.laneSorted_sortMaskSet _)
  · exact Cococo.removeMask_masksGood s t v m hgood
  · unfold Cococo.Editor.maskNotes
    dsimp only
    apply Cococo.foldl_addMask_masksGood t pr _ s hgood
    intro n hn i hi
    rw [List.mem_filter] at hn
    have hd := hdur n hn.1
    rw [Cococo.overlaps_eq_true_iff] at hn
    have hpos := hn.2.2
    have hab : max pr.1 n.start ≤ min pr.2 n.endp := by
      unfold Cococo.Note.start Cococo.Note.endp
      rcases hpos with h | h <;> omega
    have := Cococo.mem_lrange_le _ _ _ hab hi
    unfold Cococo.Note.start Cococo.Note.endp at this
    omega
  · rw [show (Cococo.Interactions.maskLaneAssign s v
        (Cococo.Interactions.maskLanePositionRange qs sw aX bX)).generationMasks
      = s.generationMasks.set v
          (Cococo.lrange (Cococo.Interactions.maskLanePositionRange qs sw aX bX).1
            (Cococo.Interactions.maskLanePositionRange qs sw aX bX).2) from rfl]
    exact Cococo.laneSorted_getD_set _ _ _
      (Cococo.lrange_sorted _ _ (Cococo.maskLanePositionRange_le qs sw aX bX hqs hsw))
  · intro h1 h2 l hl
    rw [show (Cococo.Interactions.maskLaneAssign s v
        (Cococo.Interactions.maskLanePositionRange qs sw aX bX)).generationMasks
      = s.generationMasks.set v
          (Cococo.lrange (Cococo.Interactions.maskLanePositionRange qs sw aX bX).1
            (Cococo.Interactions.maskLanePositionRange qs sw aX bX).2) from rfl] at hl
    rcases List.mem_or_eq_of_mem_set hl with h | h
    · exact hgood l h
    · subst h
      have hab := Cococo.maskLanePositionRange_le qs sw aX bX hqs hsw
      refine ⟨Cococo.lrange_sorted _ _ hab, fun i hi => ?_⟩
      have := Cococo.mem_lrange_le _ _ _ hab hi
      omega

theorem C8_mask_mutations_sorted_and_bounded_witness :
    (0 : Int) < 2 ∧ (0 : Rat) < 1 ∧
    Cococo.masksGood 16
      (({ notesMap := [{ id := 1, pitch := 60, position := 0, duration := 4 }],
          tempNotesMap := [] } : Cococo.Editor)).generationMasks ∧
    (∀ n ∈ Cococo.Editor.allNotes
        { notesMap := [{ id := 1, pitch := 60, position := 0, duration := 4 }],
          tempNotesMap := [] }, 1 ≤ n.duration) ∧
    (0 : Int) ≤ 2 ∧ (2 : Int) ≤ 8 ∧ (8 : Int) ≤ 16 ∧
    (Cococo.laneSorted ((Cococo.Editor.addMask
        { notesMap := [{ id := 1, pitch := 60, position := 0, duration := 4 }],
          tempNotesMap := [] } 0 [2]).generationMasks.getD 0 []) ∧
     ((∀ i ∈ [(2 : Int)], 0 ≤ i ∧ i < 16) →
       Cococo.masksGood 16 (Cococo.Editor.addMask
        { notesMap := [{ id := 1, pitch := 60, position := 0, duration := 4 }],
          tempNotesMap := [] } 0 [2]).generationMasks) ∧
     Cococo.laneSorted ((Cococo.Editor.removeMask
        { notesMap := [{ id := 1, pitch := 60, position := 0, duration := 4 }],
          tempNotesMap := [] } 0 [2]).generationMasks.getD 0 []) ∧
     Cococo.masksGood 16 (Cococo.Editor.removeMask
        { notesMap := [{ id := 1, pitch := 60, position := 0, duration := 4 }],
          tempNotesMap := [] } 0 [2]).generationMasks ∧
     Cococo.masksGood 16 (Cococo.Editor.maskNotes
        { notesMap := [{ id := 1, pitch := 60, position := 0, duration := 4 }],
          tempNotesMap := [] } (2, 8) (60, 60)).generationMasks ∧
     Cococo.laneSorted ((Cococo.Interactions.maskLaneAssign
        { notesMap := [{ id := 1, pitch := 60, position := 0, duration := 4 }],
          tempNotesMap := [] } 0
        (Cococo.Interactions.maskLanePositionRange 2 1 0 4)).generationMasks.getD 0 []) ∧
     (0 ≤ (Cococo.Interactions.maskLanePositionRange 2 1 0 4).1 →
       (Cococo.Interactions.maskLanePositionRange 2 1 0 4).2 ≤ 16 →
       Cococo.masksGood 16 (Cococo.Interactions.maskLaneAssign
        { notesMap := [{ id := 1, pitch := 60, position := 0, duration := 4 }],
          tempNotesMap := [] } 0
        (Cococo.Interactions.maskLanePositionRange 2 1 0 4)).generationMasks)) :=
  ⟨by decide, by norm_num, by decide, by decide, by decide, by decide, by decide,
   C8_mask_mutations_sorted_and_bounded
     { notesMap := [{ id := 1, pitch := 60, position := 0, duration := 4 }],
       tempNotesMap := [] } 16 0 [2] (2, 8) (60, 60) 2 1 0 4
     (by decide) (by norm_num) (by decide) (by decide) (by decide) (by decide) (by decide)⟩

/-- The three JS rounding functions are the identity on integers. -/
theorem Interactions.Rounding.apply_intCast (fn : Cococo.Interactions.Rounding) (k : Int) :
    fn.apply (k : Rat) = k := by
  cases fn with
  | round =>
    show ⌊(k : Rat) + (1 : Rat) / 2⌋ = k
    rw [Int.floor_int_add]
    norm_num
  | floor => exact Int.floor_intCast k
  | ceil => exact Int.ceil_intCast k

/-- C9: quantization is idempotent — for every integer `x`, positive step `s`
and rounding mode, re-quantizing the quantized value returns it unchanged. -/
theorem C9_quantizePosition_idempotent (x s : Int) (hs : 0 < s)
    (fn : Cococo.Interactions.Rounding) :
    Cococo.Interactions.quantizePosition s
        ((Cococo.Interactions.quantizePosition s (x : Rat) fn : Int) : Rat) fn
      = Cococo.Interactions.quantizePosition s (x : Rat) fn := by
  unfold Cococo.Interactions.quantizePosition
  have hs0 : ((s : Rat)) ≠ 0 := by
    exact_mod_cast (Int.ne_of_gt hs)
  have hdiv : ((((fn.apply ((x : Rat) / (s : Rat))) * s : Int) : Rat)) / (s : Rat)
      = ((fn.apply ((x : Rat) / (s : Rat)) : Int) : Rat) := by
    push_cast
    field_simp
  rw [hdiv, Cococo.Interactions.Rounding.apply_intCast]

theorem C9_quantizePosition_idempotent_witness :
    0 < (2 : Int) ∧
    Cococo.Interactions.quantizePosition 2
        ((Cococo.Interactions.quantizePosition 2 ((3 : Int) : Rat)
            Cococo.Interactions.Rounding.round : Int) : Rat)
        Cococo.Interactions.Rounding.round
      = Cococo.Interactions.quantizePosition 2 ((3 : Int) : Rat)
          Cococo.Interactions.Rounding.round :=
  ⟨by norm_num, C9_quantizePosition_idempotent 3 2 (by norm_num)
      Cococo.Interactions.Rounding.round⟩

/-- C10: in the flag-toggling editor variant, `maskNotes` is an involution —
applying it twice with the same ranges restores every note (its `isMasked`
flag and every other attribute) in both maps. -/
theorem C10_maskNotes_involution (s : Cococo.EditorV.EditorState) (pr vr : Int × Int) :
    Cococo.EditorV.maskNotes (Cococo.EditorV.maskNotes s pr vr) pr vr = s := by
  cases s with
  | mk u a =>
    unfold Cococo.EditorV.maskNotes
    simp only [Cococo.EditorV.map_toggle_toggle]

end Cococo
